import Mathlib

/-!
Shallow embedding of the `scladro_price_compare` repository:
the per-supplier price pipeline (`processor/suppliers/altacera.py`,
`processor/suppliers/mir_keramiki.py`), the orchestration and ledger write
(`processor/process_data.py`), and the web download endpoint (`web/main.py`).

Python scalar cell values are modelled by `PyVal` (None / string / number);
pandas DataFrames are modelled as Lean lists of record rows; the Postgres
`file_records` table is a list of `LedgerRecord`; the filesystem is an
explicit `String → Option table` oracle.  All definitions are executable.
-/

namespace PriceCompare

/-- A Python scalar value as it appears in the suppliers' JSON payloads and
DataFrame cells: `None`, a string, or a number (modelled as a rational). -/
inductive PyVal where
  | none : PyVal
  | str : String → PyVal
  | num : Rat → PyVal
deriving DecidableEq

/-- Python truthiness of a scalar: `None`, `""` and `0` are falsy
(the meaning of `if not x:` in the source). -/
def PyVal.truthy : PyVal → Bool
  | .none => false
  | .str s => !s.isEmpty
  | .num q => q != 0

/-- Python `a or b` on scalars: `a` if truthy, else `b`
(used for the `item.get('x') or item.get('y')` chains in `altacera.py`). -/
def pyOr (a b : PyVal) : PyVal := if a.truthy then a else b

/-- Digits of a decimal string read into a natural number. -/
def digitsToNat (cs : List Char) : Nat :=
  cs.foldl (fun a c => a * 10 + (c.toNat - 48)) 0

/-- Numeric parsing of a string as done by `pandas.to_numeric`: optional
sign, decimal digits with an optional fractional part, surrounding
whitespace ignored; anything else fails (models the `errors='coerce'`
inputs that become NaN).  Scientific notation is not modelled (no claim
depends on it). -/
def parseDecimal (s : String) : Option Rat :=
  let cs := (s.data.dropWhile Char.isWhitespace).reverse.dropWhile Char.isWhitespace |>.reverse
  let signAndRest : Int × List Char :=
    match cs with
    | '-' :: r => (-1, r)
    | '+' :: r => (1, r)
    | r => (1, r)
  let sign := signAndRest.1
  let rest := signAndRest.2
  let ip := rest.takeWhile (fun c => c ≠ '.')
  let rest2 := rest.dropWhile (fun c => c ≠ '.')
  match rest2 with
  | [] =>
    if !ip.isEmpty && ip.all Char.isDigit then
      some (mkRat (sign * (digitsToNat ip : Int)) 1)
    else Option.none
  | _ :: fp =>
    if ip.all Char.isDigit && fp.all Char.isDigit && (!ip.isEmpty || !fp.isEmpty) then
      some (mkRat
        (sign * ((digitsToNat ip * 10 ^ fp.length + digitsToNat fp : Nat) : Int))
        (10 ^ fp.length))
    else Option.none

/-- `pandas.to_numeric(x, errors='coerce')` on one cell: numbers pass
through, numeric strings parse, everything else (including `None`)
becomes NaN, modelled as `Option.none`. -/
def toNumericCoerce : PyVal → Option Rat
  | .none => Option.none
  | .num q => some q
  | .str s => parseDecimal s

/-- One cell of `pd.to_numeric(col, errors='coerce').fillna(0)`:
the coercion applied to every price cell by both suppliers' normalize. -/
def coercePrice (v : PyVal) : Rat := (toNumericCoerce v).getD 0

/-! ## Altacera normalization (`altacera.py`, `create_unified_xlsx`) -/

namespace Altacera

/-- One element of a nom item's `units` list.  `unit` is `Option` because
`unit.get('unit', 'шт')` distinguishes an absent key (default `'шт'`)
from a present null. -/
structure NomUnit where
  unit_id : PyVal
  unit : Option PyVal
deriving DecidableEq

/-- One item of the `tovar_json` payload.  Each field models
`item.get('<field>')`, which conflates an absent key and a null value,
so plain `PyVal` suffices. -/
structure NomItem where
  tovar_id : PyVal
  id : PyVal
  artikul : PyVal
  article : PyVal
  sku : PyVal
  tovar : PyVal
  name : PyVal
  title : PyVal
  units : List NomUnit
deriving DecidableEq

/-- The value stored in the nom lookup `mapping[(tovar_id, unit_id)]`:
Название / Единица измерения / Артикул. -/
structure BaseInfo where
  nazvanie : PyVal
  edinitsa : PyVal
  artikul : PyVal
deriving DecidableEq

/-- One item of a price block's `price_list`. -/
structure PriceItem where
  tovar_id : PyVal
  unit_id : PyVal
  price : PyVal
  value : PyVal
deriving DecidableEq

/-- One block of the `price_json` payload. -/
structure PriceBlock where
  price_list : List PriceItem
deriving DecidableEq

/-- The assignments `mapping[(tovar_id, unit_id)] = {...}` performed by the
first loop of `create_unified_xlsx`, in execution order.  A later
assignment to the same key shadows an earlier one, so lookup searches the
reversed list. -/
def mappingEntries (nom : List NomItem) : List ((PyVal × PyVal) × BaseInfo) :=
  nom.flatMap (fun item =>
    let tovarId := pyOr item.tovar_id item.id
    if !tovarId.truthy then []
    else
      let artikul := pyOr (pyOr item.artikul item.article) item.sku
      let tovarName := pyOr (pyOr item.tovar item.name) item.title
      item.units.filterMap (fun u =>
        if u.unit_id.truthy then
          some ((tovarId, u.unit_id), ⟨tovarName, u.unit.getD (.str "шт"), artikul⟩)
        else Option.none))

/-- Python dict lookup `mapping.get(key)` where `mapping` was built by
in-place assignments: the last assignment for the key wins. -/
def lookupMapping (m : List ((PyVal × PyVal) × BaseInfo)) (k : PyVal × PyVal) :
    Option BaseInfo :=
  (m.reverse.find? (fun e => decide (e.1 = k))).map (fun e => e.2)

/-- A row of the unified table before price coercion
(`Название`, `Единица измерения`, `Артикул`, raw `Цена`). -/
structure URow where
  nazvanie : PyVal
  edinitsa : PyVal
  artikul : PyVal
  tsena : PyVal
deriving DecidableEq

/-- A canonical row after price coercion: the shape stored in
`unified.xlsx` (`Цена` numeric). -/
structure CRow where
  nazvanie : PyVal
  edinitsa : PyVal
  artikul : PyVal
  tsena : Rat
deriving DecidableEq

/-- The `unified_data` list built by the second loop of
`create_unified_xlsx`: price items with falsy `tovar_id`, `unit_id` or
price value are skipped (`continue`), the rest are joined against the nom
lookup; rows without a join match are silently dropped. -/
def joined (nom : List NomItem) (priceBlocks : List PriceBlock) : List URow :=
  priceBlocks.flatMap (fun pb =>
    pb.price_list.filterMap (fun pi =>
      if pi.tovar_id.truthy && pi.unit_id.truthy && (pyOr pi.price pi.value).truthy then
        (lookupMapping (mappingEntries nom) (pi.tovar_id, pi.unit_id)).map
          (fun b => ⟨b.nazvanie, b.edinitsa, b.artikul, pyOr pi.price pi.value⟩)
      else Option.none))

/-- `pd.to_numeric(df['Цена'], errors='coerce').fillna(0)` on one row. -/
def coerceRow (r : URow) : CRow :=
  ⟨r.nazvanie, r.edinitsa, r.artikul, coercePrice r.tsena⟩

end Altacera

/-- `df.drop_duplicates(subset=[k], keep='last')`: keep a row iff no later
row has the same key, preserving the order of the kept rows. -/
def dedupKeepLastBy {α κ : Type} [DecidableEq κ] (key : α → κ) : List α → List α
  | [] => []
  | a :: rest =>
    if rest.any (fun b => decide (key b = key a)) then dedupKeepLastBy key rest
    else a :: dedupKeepLastBy key rest

namespace Altacera

/-- `create_unified_xlsx` of `AltaceraProcess`, given the already-fetched
raw payloads: join, coerce `Цена` to numeric, then
`drop_duplicates(subset=['Артикул'], keep='last')`. -/
def create_unified_xlsx (nom : List NomItem) (priceBlocks : List PriceBlock) :
    List CRow :=
  dedupKeepLastBy (fun r => r.artikul) ((joined nom priceBlocks).map coerceRow)

end Altacera

/-! ## MirKeramiki normalization (`mir_keramiki.py`, `create_unified_xlsx`) -/

namespace MirKeramiki

/-- One item of the MirKeramiki JSON payload.  Fields are `Option PyVal`
because `item.get('Name', "")` distinguishes an absent key (use the
default) from a present null. -/
structure MirItem where
  name : Option PyVal
  article : Option PyVal
  unit : Option PyVal
  priceDiler2 : Option PyVal
deriving DecidableEq

/-- A row of the MirKeramiki unified table: columns
`Name`, `Article`, `Unit`, `PriceDiler2` (price numeric after coercion). -/
structure MirRow where
  name : PyVal
  article : PyVal
  unit : PyVal
  priceDiler2 : Rat
deriving DecidableEq

/-- `create_unified_xlsx` of `MirKeramiki`, given the already-parsed raw
payload.  `if not raw_data: return None` makes an empty payload yield no
table at all; otherwise one row per item with defaults `""`/`0` for
absent keys and `to_numeric(..., errors='coerce').fillna(0)` on the
price column. -/
def create_unified_xlsx (rawData : List MirItem) : Option (List MirRow) :=
  if rawData.isEmpty then Option.none
  else some (rawData.map (fun item =>
    ⟨item.name.getD (.str ""), item.article.getD (.str ""),
     item.unit.getD (.str ""), coercePrice (item.priceDiler2.getD (.num 0))⟩))

/-- The column labels of the DataFrame built by
`MirKeramiki.create_unified_xlsx` (for any non-empty payload). -/
def unifiedColumns : List String := ["Name", "Article", "Unit", "PriceDiler2"]

end MirKeramiki

/-! ## Ledger (`file_records` table) and its upsert (`process_data.py`) -/

/-- One row of the Postgres `file_records` table.  Dates are abstracted to
naturals (higher = later). -/
structure LedgerRecord where
  date : Nat
  currentUnifiedPath : Option String
  previousUnifiedPath : Option String
  reportPath : Option String
  supplierName : String
deriving DecidableEq

/-- The `INSERT ... ON CONFLICT (date) DO UPDATE` of
`process_any_supplier`: the conflict target is `date` alone (the table
has a unique constraint on `date`), and on conflict every payload column
including `supplier_name` is overwritten, so the conflicting row becomes
exactly the new record. -/
def upsertRecord (l : List LedgerRecord) (r : LedgerRecord) : List LedgerRecord :=
  if l.any (fun x => decide (x.date = r.date)) then
    l.map (fun x => if x.date = r.date then r else x)
  else l ++ [r]

/-- Fold step for `ORDER BY date DESC LIMIT 1`: keep the record with the
strictly larger date. -/
def laterOf (acc : Option LedgerRecord) (r : LedgerRecord) : Option LedgerRecord :=
  match acc with
  | Option.none => some r
  | some a => if a.date < r.date then some r else some a

/-- The query `SELECT current_unified_path FROM file_records WHERE
supplier_name = %s ORDER BY date DESC LIMIT 1`, returning the whole
record with the maximal date for the supplier (dates are unique in the
table, so the maximum is unambiguous). -/
def latestFor (supplier : String) (l : List LedgerRecord) : Option LedgerRecord :=
  (l.filter (fun x => decide (x.supplierName = supplier))).foldl laterOf Option.none

/-- `os.path.join(base_path, supplier, date, "unified.xlsx")`. -/
def unifiedPathFor (basePath supplier : String) (today : Nat) : String :=
  basePath ++ "/" ++ supplier ++ "/" ++ toString today ++ "/unified.xlsx"

/-- `os.path.join(base_path, supplier, date, "report.xlsx")`. -/
def reportPathFor (basePath supplier : String) (today : Nat) : String :=
  basePath ++ "/" ++ supplier ++ "/" ++ toString today ++ "/report.xlsx"

/-! ## Change check and report (`altacera.py`) -/

namespace Altacera

/-- The whole-table comparison `current_df.equals(previous_df)` deciding
`has_changes` in `check_for_changes`: order- and value-sensitive equality
of the two tables. -/
def hasChangesPure (previousDf currentDf : List CRow) : Bool :=
  if currentDf = previousDf then false else true

/-- The tuple returned by `check_for_changes`. -/
structure CheckResult where
  hasChanges : Bool
  currentUnifiedPath : Option String
  previousUnifiedPath : Option String
  currentDf : Option (List CRow)
  previousDf : Option (List CRow)
deriving DecidableEq

/-- `check_for_changes` of `AltaceraProcess`.  `fetched` is the result of
`create_unified_xlsx` (`None` when fetch failed); `fs` is the filesystem:
`fs p = none` models a path that is missing (`os.path.exists` false) or
unreadable (`pd.read_excel` raised); saving the current table is modelled
as succeeding (the path it would be written to is returned). -/
def check_for_changes (basePath supplierName : String) (today : Nat)
    (fetched : Option (List CRow)) (ledger : List LedgerRecord)
    (fs : String → Option (List CRow)) : CheckResult :=
  match fetched with
  | Option.none => ⟨false, Option.none, Option.none, Option.none, Option.none⟩
  | some currentDf =>
    match Option.bind (latestFor supplierName ledger) (fun r => r.currentUnifiedPath) with
    | Option.none =>
      ⟨false, some (unifiedPathFor basePath supplierName today), Option.none,
        some currentDf, Option.none⟩
    | some pp =>
      match fs pp with
      | Option.none =>
        ⟨false, some (unifiedPathFor basePath supplierName today), some pp,
          some currentDf, Option.none⟩
      | some previousDf =>
        ⟨hasChangesPure previousDf currentDf,
          some (unifiedPathFor basePath supplierName today), some pp,
          some currentDf, some previousDf⟩

/-- pandas' elementwise `!=` on two object cells: null-propagating, so the
comparison is True whenever either cell is missing (`None` in a fresh
frame, NaN after `pd.read_excel` — `PyVal.none` models both), and
ordinary inequality otherwise.  Note the asymmetry with
`DataFrame.equals` (`hasChangesPure`), which treats nulls in the same
location as equal. -/
def cellNeq (a b : PyVal) : Bool :=
  match a, b with
  | .none, _ => true
  | _, .none => true
  | a, b => decide (a ≠ b)

/-- `both['..._prev'] != both['..._curr']` over the three non-key columns:
the row-changed test of `create_report_in_date_folder`.  The Название and
Единица измерения cells compare null-propagating (`cellNeq`); the Цена
cells are floats after `to_numeric(...).fillna(0)` and are never null, so
they compare by plain inequality. -/
def rowFieldsDiffer (p c : CRow) : Bool :=
  cellNeq p.nazvanie c.nazvanie || cellNeq p.edinitsa c.edinitsa ||
    decide (p.tsena ≠ c.tsena)

/-- Lookup of the (first) row with the given `Артикул`; on tables with
unique keys this is the row the outer merge pairs with that key. -/
def lookupByArtikul (t : List CRow) (k : PyVal) : Option CRow :=
  t.find? (fun r => decide (r.artikul = k))

/-- The `Добавленные` sheet of the detailed report: merge indicator
`right_only`, i.e. current rows whose key is absent from `previous`. -/
def addedItems (prev cur : List CRow) : List CRow :=
  cur.filter (fun c => (lookupByArtikul prev c.artikul).isNone)

/-- The `Удаленные` sheet: merge indicator `left_only`, i.e. previous rows
whose key is absent from `current`. -/
def removedItems (prev cur : List CRow) : List CRow :=
  prev.filter (fun p => (lookupByArtikul cur p.artikul).isNone)

/-- Test for the `Измененные` sheet on one current row: its key is in
`previous` and some field differs. -/
def changedPred (prev : List CRow) (c : CRow) : Bool :=
  match lookupByArtikul prev c.artikul with
  | some p => rowFieldsDiffer p c
  | Option.none => false

/-- Test for an unchanged row: its key is in `previous` and no field
differs. -/
def unchangedPred (prev : List CRow) (c : CRow) : Bool :=
  match lookupByArtikul prev c.artikul with
  | some p => !rowFieldsDiffer p c
  | Option.none => false

/-- The `Измененные` sheet: keys present in both whose Название, Единица
измерения or Цена differ, reported with current-side values. -/
def changedItems (prev cur : List CRow) : List CRow :=
  cur.filter (changedPred prev)

/-- Keys present in both tables with no field difference (excluded from
all three report sheets). -/
def unchangedItems (prev cur : List CRow) : List CRow :=
  cur.filter (unchangedPred prev)

/-- The business keys (`Артикул` column) of a table, in row order. -/
def keysOf (t : List CRow) : List PyVal := t.map (fun r => r.artikul)

/-- `create_report_in_date_folder` of `AltaceraProcess`, reduced to its
(report path, unified path) return value.  Excel writes are modelled as
succeeding; the detailed branch merges on `Артикул`, a column every
Altacera canonical table has, so it fails (caught `except`, returning
`None` for the report) exactly when one of the two DataFrames is absent. -/
def create_report_in_date_folder (basePath supplierName : String) (today : Nat)
    (hasChanges : Bool) (currentUnifiedPath : Option String)
    (currentDf previousDf : Option (List CRow)) : Option String × Option String :=
  if hasChanges = false then
    (some (reportPathFor basePath supplierName today), currentUnifiedPath)
  else
    match previousDf, currentDf with
    | some _, some _ => (some (reportPathFor basePath supplierName today), currentUnifiedPath)
    | _, _ => (Option.none, currentUnifiedPath)

end Altacera

/-- `process_any_supplier` of `process_data.py` for the Altacera-shaped
pipeline: run the change check, build the report, then unconditionally
`INSERT ... ON CONFLICT (date) DO UPDATE` the record
`(today, unified_path, previous_unified_path, report_path, supplier_name)`.
Returns the ledger after the run. -/
def process_any_supplier (basePath supplierName : String) (today : Nat)
    (fetched : Option (List Altacera.CRow)) (ledger : List LedgerRecord)
    (fs : String → Option (List Altacera.CRow)) : List LedgerRecord :=
  let chk := Altacera.check_for_changes basePath supplierName today fetched ledger fs
  let rp := Altacera.create_report_in_date_folder basePath supplierName today
    chk.hasChanges chk.currentUnifiedPath chk.currentDf chk.previousDf
  upsertRecord ledger
    ⟨today, rp.2, chk.previousUnifiedPath, rp.1, supplierName⟩

/-! ## MirKeramiki report (`mir_keramiki.py`, `create_report_in_date_folder`) -/

namespace MirKeramiki

/-- `pd.merge(previous_df, current_df, on='Артикул', ...)` viewed at the
join key: the merge (and hence the whole `try` block) succeeds only if
both frames have an `Артикул` column, otherwise pandas raises `KeyError`,
the `except` branch runs, and the report path is `None`. -/
def mergePossible (prevCols curCols : List String) : Bool :=
  decide ("Артикул" ∈ prevCols) && decide ("Артикул" ∈ curCols)

/-- `create_report_in_date_folder` of `MirKeramiki`, reduced to its report
path.  The no-changes branch writes a status sheet (modelled as
succeeding); the detailed branch is decided at the join key: if `Артикул`
is missing from either table the merge raises and the `except` branch
returns `None`. -/
def create_report_in_date_folder (basePath : String) (today : Nat)
    (hasChanges : Bool) (prevCols curCols : List String) : Option String :=
  if hasChanges = false then
    some (reportPathFor basePath "mir_keramiki" today)
  else if mergePossible prevCols curCols then
    some (reportPathFor basePath "mir_keramiki" today)
  else Option.none

/-- Column labels of a stored MirKeramiki unified table: the rows are
`MirRow` records, so the frame's columns are exactly `unifiedColumns`. -/
def columnsOf (_rows : List MirRow) : List String := unifiedColumns

end MirKeramiki

/-! ## Altacera fetch (`altacera.py`, `get_raw_files`) -/

namespace Altacera

/-- Outcome of one HTTP GET for the nom file: success with the decoded
payload, a `requests.RequestException` (transient network failure), or a
payload that fails archive/JSON decoding. -/
inductive NomOutcome where
  | ok : List NomItem → NomOutcome
  | transientErr : NomOutcome
  | corruptPayload : NomOutcome
deriving DecidableEq

/-- Outcome of one HTTP GET for the price file. -/
inductive PriceOutcome where
  | ok : List PriceBlock → PriceOutcome
  | transientErr : PriceOutcome
  | corruptPayload : PriceOutcome
deriving DecidableEq

/-- Result of `get_raw_files`: both payloads, `None` (the
`except requests.RequestException` branch), or an exception that escapes
the function (`zipfile`/`json` errors are not `RequestException` and are
not caught). -/
inductive RawResult where
  | success : List NomItem → List PriceBlock → RawResult
  | failure : RawResult
  | uncaughtExn : RawResult
deriving DecidableEq

/-- `get_raw_files` of `AltaceraProcess`.  `nomReq n` / `priceReq n` is
the outcome the network would give the (n+1)-th request for that file.
The function performs exactly one request per file (no retry loop in the
source), so only index 0 is ever consulted; the second component counts
the HTTP requests performed. -/
def get_raw_files (nomReq : Nat → NomOutcome) (priceReq : Nat → PriceOutcome) :
    RawResult × Nat :=
  match nomReq 0 with
  | .transientErr => (.failure, 1)
  | .corruptPayload => (.uncaughtExn, 1)
  | .ok nom =>
    match priceReq 0 with
    | .transientErr => (.failure, 2)
    | .corruptPayload => (.uncaughtExn, 2)
    | .ok price => (.success nom price, 2)

end Altacera

/-! ## Web download endpoint (`web/main.py`, `download_file`) -/

/-- Response of the `/download/{file_path}` endpoint: the served file or
the JSON error object. -/
inductive DownloadResponse where
  | file : String → DownloadResponse
  | errorNotFound : String → DownloadResponse
deriving DecidableEq

/-- `download_file` of `web/main.py`: unconditionally slice off the first
four characters (`file_path = file_path[4:]`), then serve the file at the
resulting path if it exists, else return the error object.  `fs p` is
`os.path.exists(p)`. -/
def download_file (fs : String → Bool) (filePath : String) : DownloadResponse :=
  let p := filePath.drop 4
  if fs p then .file p else .errorNotFound ("File not found: " ++ p)

/-! ## Helper lemmas about the diff classification -/

namespace Altacera

lemma lookupByArtikul_eq_none_iff (t : List CRow) (k : PyVal) :
    lookupByArtikul t k = Option.none ↔ ∀ r ∈ t, r.artikul ≠ k := by
  simp [lookupByArtikul, List.find?_eq_none]

lemma lookupByArtikul_eq_some (t : List CRow) (k : PyVal) (p : CRow)
    (h : lookupByArtikul t k = some p) : p ∈ t ∧ p.artikul = k := by
  refine ⟨List.mem_of_find?_eq_some h, ?_⟩
  have h2 := List.find?_some h
  simpa using h2

lemma lookupByArtikul_isSome_of_mem (t : List CRow) (c : CRow) (hc : c ∈ t) :
    ∃ p, lookupByArtikul t c.artikul = some p := by
  have h : (t.find? (fun r => decide (r.artikul = c.artikul))).isSome := by
    rw [List.find?_isSome]
    exact ⟨c, hc, by simp⟩
  exact Option.isSome_iff_exists.mp h

lemma lookupByArtikul_self (t : List CRow) (h : (keysOf t).Nodup)
    (c : CRow) (hc : c ∈ t) : lookupByArtikul t c.artikul = some c := by
  obtain ⟨p, hp⟩ := lookupByArtikul_isSome_of_mem t c hc
  have h2 := lookupByArtikul_eq_some t c.artikul p hp
  have h3 : p = c := List.inj_on_of_nodup_map h h2.1 hc h2.2
  rw [hp, h3]

lemma mem_keysOf (k : PyVal) (t : List CRow) :
    k ∈ keysOf t ↔ ∃ r, r ∈ t ∧ r.artikul = k := by
  simp [keysOf]

lemma mem_keysOf_added (k : PyVal) (prev cur : List CRow) :
    k ∈ keysOf (addedItems prev cur) ↔
      ∃ c, c ∈ cur ∧ c.artikul = k ∧ lookupByArtikul prev k = Option.none := by
  constructor
  · intro h
    rw [mem_keysOf] at h
    obtain ⟨c, hc, rfl⟩ := h
    rw [addedItems, List.mem_filter] at hc
    exact ⟨c, hc.1, rfl, Option.isNone_iff_eq_none.mp hc.2⟩
  · rintro ⟨c, hc, rfl, hnone⟩
    rw [mem_keysOf]
    exact ⟨c, List.mem_filter.mpr ⟨hc, Option.isNone_iff_eq_none.mpr hnone⟩, rfl⟩

lemma mem_keysOf_removed (k : PyVal) (prev cur : List CRow) :
    k ∈ keysOf (removedItems prev cur) ↔
      ∃ p, p ∈ prev ∧ p.artikul = k ∧ lookupByArtikul cur k = Option.none := by
  constructor
  · intro h
    rw [mem_keysOf] at h
    obtain ⟨p, hp, rfl⟩ := h
    rw [removedItems, List.mem_filter] at hp
    exact ⟨p, hp.1, rfl, Option.isNone_iff_eq_none.mp hp.2⟩
  · rintro ⟨p, hp, rfl, hnone⟩
    rw [mem_keysOf]
    exact ⟨p, List.mem_filter.mpr ⟨hp, Option.isNone_iff_eq_none.mpr hnone⟩, rfl⟩

lemma changedPred_iff (prev : List CRow) (c : CRow) :
    changedPred prev c = true ↔
      ∃ p, lookupByArtikul prev c.artikul = some p ∧ rowFieldsDiffer p c = true := by
  rw [changedPred]
  rcases h : lookupByArtikul prev c.artikul with _ | p <;> simp [h]

lemma unchangedPred_iff (prev : List CRow) (c : CRow) :
    unchangedPred prev c = true ↔
      ∃ p, lookupByArtikul prev c.artikul = some p ∧ rowFieldsDiffer p c = false := by
  rw [unchangedPred]
  rcases h : lookupByArtikul prev c.artikul with _ | p <;> simp [h]

lemma mem_keysOf_changed (k : PyVal) (prev cur : List CRow) :
    k ∈ keysOf (changedItems prev cur) ↔
      ∃ c p, c ∈ cur ∧ c.artikul = k ∧ lookupByArtikul prev k = some p ∧
        rowFieldsDiffer p c = true := by
  constructor
  · intro h
    rw [mem_keysOf] at h
    obtain ⟨c, hc, rfl⟩ := h
    rw [changedItems, List.mem_filter] at hc
    obtain ⟨p, hp, hd⟩ := (changedPred_iff prev c).mp hc.2
    exact ⟨c, p, hc.1, rfl, hp, hd⟩
  · rintro ⟨c, p, hc, rfl, hp, hd⟩
    rw [mem_keysOf]
    exact ⟨c, List.mem_filter.mpr ⟨hc, (changedPred_iff prev c).mpr ⟨p, hp, hd⟩⟩, rfl⟩

lemma mem_keysOf_unchanged (k : PyVal) (prev cur : List CRow) :
    k ∈ keysOf (unchangedItems prev cur) ↔
      ∃ c p, c ∈ cur ∧ c.artikul = k ∧ lookupByArtikul prev k = some p ∧
        rowFieldsDiffer p c = false := by
  constructor
  · intro h
    rw [mem_keysOf] at h
    obtain ⟨c, hc, rfl⟩ := h
    rw [unchangedItems, List.mem_filter] at hc
    obtain ⟨p, hp, hd⟩ := (unchangedPred_iff prev c).mp hc.2
    exact ⟨c, p, hc.1, rfl, hp, hd⟩
  · rintro ⟨c, p, hc, rfl, hp, hd⟩
    rw [mem_keysOf]
    exact ⟨c, List.mem_filter.mpr ⟨hc, (unchangedPred_iff prev c).mpr ⟨p, hp, hd⟩⟩, rfl⟩

lemma cellNeq_self (a : PyVal) (h : a ≠ PyVal.none) : cellNeq a a = false := by
  cases a with
  | none => exact absurd rfl h
  | str s => simp [cellNeq]
  | num q => simp [cellNeq]

lemma rowFieldsDiffer_self (c : CRow) (h1 : c.nazvanie ≠ PyVal.none)
    (h2 : c.edinitsa ≠ PyVal.none) : rowFieldsDiffer c c = false := by
  rw [rowFieldsDiffer, cellNeq_self c.nazvanie h1, cellNeq_self c.edinitsa h2]
  simp

lemma addedItems_self (t : List CRow) : addedItems t t = [] := by
  rw [addedItems, List.filter_eq_nil_iff]
  intro c hc
  obtain ⟨p, hp⟩ := lookupByArtikul_isSome_of_mem t c hc
  simp [hp]

lemma removedItems_self (t : List CRow) : removedItems t t = [] := by
  rw [removedItems, List.filter_eq_nil_iff]
  intro c hc
  obtain ⟨p, hp⟩ := lookupByArtikul_isSome_of_mem t c hc
  simp [hp]

lemma changedItems_self (t : List CRow) (h : (keysOf t).Nodup)
    (hnn : ∀ c ∈ t, c.nazvanie ≠ PyVal.none ∧ c.edinitsa ≠ PyVal.none) :
    changedItems t t = [] := by
  rw [changedItems, List.filter_eq_nil_iff]
  intro c hc
  rw [changedPred, lookupByArtikul_self t h c hc]
  simp [rowFieldsDiffer_self c (hnn c hc).1 (hnn c hc).2]

end Altacera

/-! ## Helper lemmas about keep-last de-duplication -/

lemma mem_of_mem_dedupKeepLastBy {α κ : Type} [DecidableEq κ] (key : α → κ) :
    ∀ (l : List α) (x : α), x ∈ dedupKeepLastBy key l → x ∈ l
  | [], x, h => by simp [dedupKeepLastBy] at h
  | a :: rest, x, h => by
    rw [dedupKeepLastBy] at h
    split at h
    · exact List.mem_cons_of_mem a (mem_of_mem_dedupKeepLastBy key rest x h)
    · rcases List.mem_cons.mp h with h1 | h2
      · exact h1 ▸ List.mem_cons_self a rest
      · exact List.mem_cons_of_mem a (mem_of_mem_dedupKeepLastBy key rest x h2)

lemma nodup_keys_dedupKeepLastBy {α κ : Type} [DecidableEq κ] (key : α → κ) :
    ∀ l : List α, ((dedupKeepLastBy key l).map key).Nodup
  | [] => by simp [dedupKeepLastBy]
  | a :: rest => by
    rw [dedupKeepLastBy]
    split
    · exact nodup_keys_dedupKeepLastBy key rest
    · rename_i hany
      rw [List.map_cons, List.nodup_cons]
      refine ⟨?_, nodup_keys_dedupKeepLastBy key rest⟩
      intro hmem
      rw [List.mem_map] at hmem
      obtain ⟨b, hb, hkb⟩ := hmem
      have hbrest := mem_of_mem_dedupKeepLastBy key rest b hb
      rw [Bool.not_eq_true, List.any_eq_false] at hany
      exact hany b hbrest (by simp [hkb])

lemma find?_dedupKeepLastBy {α κ : Type} [DecidableEq κ] (key : α → κ) (k : κ) :
    ∀ l : List α,
      (dedupKeepLastBy key l).find? (fun a => decide (key a = k)) =
        l.reverse.find? (fun a => decide (key a = k))
  | [] => rfl
  | a :: rest => by
    rw [dedupKeepLastBy, List.reverse_cons, List.find?_append]
    split
    · rename_i hany
      rw [find?_dedupKeepLastBy key k rest]
      rcases hr : rest.reverse.find? (fun a => decide (key a = k)) with _ | x
      · rw [List.find?_eq_none] at hr
        rw [List.any_eq_true] at hany
        obtain ⟨b, hb, hkb⟩ := hany
        have hbk : key b ≠ k := by
          have h2 := hr b (List.mem_reverse.mpr hb)
          simpa using h2
        have hak : ¬ (key a = k) := fun h =>
          hbk (by rw [of_decide_eq_true hkb, h])
        simp [Option.or, List.find?, hak]
      · simp [Option.or]
    · rename_i hany
      rw [Bool.not_eq_true, List.any_eq_false] at hany
      by_cases hak : key a = k
      · have hnone : rest.reverse.find? (fun x => decide (key x = k)) = Option.none := by
          rw [List.find?_eq_none]
          intro x hx
          have h2 := hany x (List.mem_reverse.mp hx)
          simp only [decide_eq_true_eq] at h2 ⊢
          rw [← hak]
          exact h2
        rw [hnone]
        simp [Option.or, List.find?, hak]
      · rw [List.find?_cons_of_neg _ (by simpa using hak), find?_dedupKeepLastBy key k rest]
        rcases hr : rest.reverse.find? (fun x => decide (key x = k)) with _ | x <;>
          simp [Option.or, List.find?, hak, hr]

/-! ## Helper lemmas about the ledger -/

lemma foldl_laterOf_cases :
    ∀ (l : List LedgerRecord) (acc : Option LedgerRecord),
      l.foldl laterOf acc = acc ∨ ∃ a ∈ l, l.foldl laterOf acc = some a
  | [], _ => Or.inl rfl
  | b :: t, acc => by
    rw [List.foldl_cons]
    rcases foldl_laterOf_cases t (laterOf acc b) with h | ⟨a, ha, h⟩
    · rw [h]
      cases acc with
      | none => exact Or.inr ⟨b, List.mem_cons_self b t, rfl⟩
      | some a0 =>
        simp only [laterOf]
        split
        · exact Or.inr ⟨b, List.mem_cons_self b t, rfl⟩
        · exact Or.inl rfl
    · exact Or.inr ⟨a, List.mem_cons_of_mem b ha, h⟩

lemma latestFor_append_newest_aux (s : String) (l : List LedgerRecord)
    (r : LedgerRecord) (hs : r.supplierName = s)
    (hlt : ∀ x ∈ l, x.date < r.date) : latestFor s (l ++ [r]) = some r := by
  rw [latestFor, List.filter_append]
  have hr : List.filter (fun x => decide (x.supplierName = s)) [r] = [r] := by
    simp [hs]
  rw [hr, List.foldl_append]
  rcases foldl_laterOf_cases
      (List.filter (fun x => decide (x.supplierName = s)) l) Option.none with h | ⟨a, ha, h⟩
  · rw [List.foldl_cons, List.foldl_nil, h]
    rfl
  · rw [List.foldl_cons, List.foldl_nil, h]
    have hlt2 : a.date < r.date := hlt a (List.mem_of_mem_filter ha)
    simp [laterOf, hlt2]

/-! ## Claims -/

/-- C10: for every requested path string, the download endpoint
unconditionally drops the first four characters and serves the file at
the resulting filesystem path whenever it exists (no check that the path
lies under the storage base directory — witnessed by `/app/etc/passwd`
being served as `/etc/passwd`); if no such file exists it returns the
error object instead. -/
theorem claim10_download_drops_four_and_serves (fs : String → Bool) (s : String) :
    (fs (s.drop 4) = true → download_file fs s = .file (s.drop 4)) ∧
    (fs (s.drop 4) = false →
      download_file fs s = .errorNotFound ("File not found: " ++ s.drop 4)) ∧
    (download_file (fun q => q == "/etc/passwd") "/app/etc/passwd" =
        .file "/etc/passwd" ∧
      "/etc/passwd".startsWith "/app/storage" = false) := by
  refine ⟨fun h => ?_, fun h => ?_, by decide⟩
  · simp [download_file, h]
  · simp [download_file, h]

/-- C10 witness: concrete application of the theorem, discharging each
hypothesis on an explicit filesystem and path. -/
theorem claim10_witness :
    (fun q => q == "stor/x.xlsx") ("/appstor/x.xlsx".drop 4) = true ∧
    download_file (fun q => q == "stor/x.xlsx") "/appstor/x.xlsx" =
      .file ("/appstor/x.xlsx".drop 4) :=
  ⟨by decide,
    (claim10_download_drops_four_and_serves
      (fun q => q == "stor/x.xlsx") "/appstor/x.xlsx").1 (by decide)⟩

/-- C5: the MirKeramiki detailed report joins on an `Артикул` column that
its own normalization never produces (the unified table's columns are
Name, Article, Unit, PriceDiler2), so whenever `has_changes` is true the
report build on tables from its own normalize takes the `except` branch
and returns report path `None`. -/
theorem claim5_mir_detailed_report_always_fails
    (rawPrev rawCur : List MirKeramiki.MirItem)
    (tPrev tCur : List MirKeramiki.MirRow) (basePath : String) (today : Nat)
    (hPrev : MirKeramiki.create_unified_xlsx rawPrev = some tPrev)
    (hCur : MirKeramiki.create_unified_xlsx rawCur = some tCur) :
    MirKeramiki.create_report_in_date_folder basePath today true
      (MirKeramiki.columnsOf tPrev) (MirKeramiki.columnsOf tCur) = Option.none := by
  rfl

/-- C5 witness: concrete application on a one-item payload. -/
theorem claim5_witness :
    MirKeramiki.create_unified_xlsx
        [⟨some (PyVal.str "X"), some (PyVal.str "K"), some (PyVal.str "pcs"),
          some (PyVal.num 1)⟩] =
      some [⟨PyVal.str "X", PyVal.str "K", PyVal.str "pcs", 1⟩] ∧
    MirKeramiki.create_report_in_date_folder "/app/storage" 1 true
      (MirKeramiki.columnsOf [⟨PyVal.str "X", PyVal.str "K", PyVal.str "pcs", 1⟩])
      (MirKeramiki.columnsOf [⟨PyVal.str "X", PyVal.str "K", PyVal.str "pcs", 1⟩]) =
      Option.none :=
  ⟨by decide,
    claim5_mir_detailed_report_always_fails
      [⟨some (PyVal.str "X"), some (PyVal.str "K"), some (PyVal.str "pcs"),
        some (PyVal.num 1)⟩]
      [⟨some (PyVal.str "X"), some (PyVal.str "K"), some (PyVal.str "pcs"),
        some (PyVal.num 1)⟩]
      [⟨PyVal.str "X", PyVal.str "K", PyVal.str "pcs", 1⟩]
      [⟨PyVal.str "X", PyVal.str "K", PyVal.str "pcs", 1⟩]
      "/app/storage" 1 (by decide) (by decide)⟩

/-- C7 counterexample: the claim says fetch retries transient failures a
bounded number of times before giving up, and that corrupt payloads
immediately return failure.  In the code a single transient failure makes
`get_raw_files` return `None` even though the very next attempt would have
succeeded (no retry at all), and a corrupt payload raises an uncaught
exception instead of returning failure. -/
theorem claim7_counterexample :
    (Altacera.get_raw_files
        (fun n => if n = 0 then .transientErr else .ok [])
        (fun _ => .ok [])).1 = .failure ∧
    (fun n => if n = 0 then Altacera.NomOutcome.transientErr else .ok []) 1 =
      .ok [] ∧
    (Altacera.get_raw_files (fun _ => .corruptPayload) (fun _ => .ok [])).1 =
      .uncaughtExn ∧
    Altacera.RawResult.uncaughtExn ≠ Altacera.RawResult.failure := by
  refine ⟨rfl, rfl, rfl, by decide⟩

/-- C7 amended: `get_raw_files` performs exactly one HTTP request per file
(at most two in total, consulting only the first outcome of each stream —
no retries, no delay); a transient network failure on either request
makes the run return failure (`None`) immediately, while a corrupt
archive/JSON payload raises an exception that escapes the function
(`zipfile`/`json` errors are not `requests.RequestException`) rather than
returning failure. -/
theorem claim7_amended (nomReq : Nat → Altacera.NomOutcome)
    (priceReq : Nat → Altacera.PriceOutcome) :
    (Altacera.get_raw_files nomReq priceReq).2 ≤ 2 ∧
    (∀ (nomReq2 : Nat → Altacera.NomOutcome)
        (priceReq2 : Nat → Altacera.PriceOutcome),
      nomReq 0 = nomReq2 0 → priceReq 0 = priceReq2 0 →
        Altacera.get_raw_files nomReq priceReq =
          Altacera.get_raw_files nomReq2 priceReq2) ∧
    (nomReq 0 = .transientErr →
      (Altacera.get_raw_files nomReq priceReq).1 = .failure) ∧
    (nomReq 0 = .corruptPayload →
      (Altacera.get_raw_files nomReq priceReq).1 = .uncaughtExn) ∧
    (∀ d, nomReq 0 = .ok d → priceReq 0 = .transientErr →
      (Altacera.get_raw_files nomReq priceReq).1 = .failure) ∧
    (∀ d, nomReq 0 = .ok d → priceReq 0 = .corruptPayload →
      (Altacera.get_raw_files nomReq priceReq).1 = .uncaughtExn) := by
  refine ⟨?_, ?_, ?_, ?_, ?_, ?_⟩
  · rcases h1 : nomReq 0 with d | _ | _ <;>
      [skip; simp [Altacera.get_raw_files, h1]; simp [Altacera.get_raw_files, h1]] <;>
      rcases h2 : priceReq 0 with e | _ | _ <;>
      simp [Altacera.get_raw_files, h1, h2]
  · intro nomReq2 priceReq2 he1 he2
    rw [Altacera.get_raw_files, Altacera.get_raw_files, ← he1, ← he2]
  · intro h1
    simp [Altacera.get_raw_files, h1]
  · intro h1
    simp [Altacera.get_raw_files, h1]
  · intro d h1 h2
    simp [Altacera.get_raw_files, h1, h2]
  · intro d h1 h2
    simp [Altacera.get_raw_files, h1, h2]

/-- C7 witness: concrete application of the amended theorem, discharging
its hypotheses on an explicit outcome stream. -/
theorem claim7_witness :
    (fun _ : Nat => Altacera.NomOutcome.transientErr) 0 = .transientErr ∧
    (Altacera.get_raw_files (fun _ => .transientErr) (fun _ => .ok [])).1 =
      .failure :=
  ⟨rfl, (claim7_amended (fun _ => .transientErr) (fun _ => .ok [])).2.2.1 rfl⟩

/-- C6 counterexample: the claim says a missing (`None`) price is coerced
to 0 and never causes the row to be dropped.  In Altacera a price item
whose price value is `None` is skipped by
`if not tovar_id or not unit_id or not price_value: continue`, so the row
vanishes from the unified table; the identical item with a concrete price
joins normally. -/
theorem claim6_counterexample :
    Altacera.create_unified_xlsx
        [⟨PyVal.str "t1", PyVal.none, PyVal.str "A1", PyVal.none, PyVal.none,
          PyVal.str "Tile A", PyVal.none, PyVal.none,
          [⟨PyVal.str "u1", some (PyVal.str "pcs")⟩]⟩]
        [⟨[⟨PyVal.str "t1", PyVal.str "u1", PyVal.none, PyVal.none⟩]⟩] = [] ∧
    Altacera.create_unified_xlsx
        [⟨PyVal.str "t1", PyVal.none, PyVal.str "A1", PyVal.none, PyVal.none,
          PyVal.str "Tile A", PyVal.none, PyVal.none,
          [⟨PyVal.str "u1", some (PyVal.str "pcs")⟩]⟩]
        [⟨[⟨PyVal.str "t1", PyVal.str "u1", PyVal.num 5, PyVal.none⟩]⟩] =
      [⟨PyVal.str "Tile A", PyVal.str "pcs", PyVal.str "A1", 5⟩] := by
  decide

/-- C6 amended: price cells are coerced with
`to_numeric(errors='coerce').fillna(0)`, so `"12.5"`, `None` and `"abc"`
coerce to `12.5`, `0` and `0`; in MirKeramiki every row of a non-empty
payload survives normalization with its price so coerced; in Altacera,
however, price items whose price value is falsy (missing/None/0/empty)
are dropped before the join, so only truthy raw prices ever reach the
coercion. -/
theorem claim6_amended :
    (coercePrice (PyVal.str "12.5") = 25 / 2 ∧ coercePrice PyVal.none = 0 ∧
      coercePrice (PyVal.str "abc") = 0) ∧
    (∀ (items : List MirKeramiki.MirItem) (rows : List MirKeramiki.MirRow),
      MirKeramiki.create_unified_xlsx items = some rows →
        rows.length = items.length ∧
        rows.map (fun r => r.priceDiler2) =
          items.map (fun it => coercePrice (it.priceDiler2.getD (PyVal.num 0)))) ∧
    (∀ (nom : List Altacera.NomItem) (pbs : List Altacera.PriceBlock),
      ∀ r ∈ Altacera.joined nom pbs, r.tsena.truthy = true) := by
  refine ⟨⟨?_, by decide, by decide⟩, ?_, ?_⟩
  · rw [show coercePrice (PyVal.str "12.5") = mkRat 25 2 from by decide,
      Rat.mkRat_eq_divInt, Rat.divInt_eq_div]
    norm_num
  · intro items rows h
    rw [MirKeramiki.create_unified_xlsx] at h
    split at h
    · exact absurd h (by simp)
    · obtain rfl := Option.some.inj h
      refine ⟨by rw [List.length_map], ?_⟩
      rw [List.map_map]
      rfl
  · intro nom pbs r hr
    simp only [Altacera.joined, List.mem_flatMap, List.mem_filterMap] at hr
    obtain ⟨pb, _, pi, _, hsome⟩ := hr
    by_cases hc : (pi.tovar_id.truthy && pi.unit_id.truthy &&
        (pyOr pi.price pi.value).truthy) = true
    · rw [if_pos hc] at hsome
      rw [Option.map_eq_some'] at hsome
      obtain ⟨b, _, rfl⟩ := hsome
      simp only [Bool.and_eq_true] at hc
      exact hc.2
    · rw [if_neg hc] at hsome
      cases hsome

/-- C6 witness: concrete application of the MirKeramiki part of the
amended theorem, discharging its hypothesis on a one-item payload
containing a `None` price. -/
theorem claim6_witness :
    MirKeramiki.create_unified_xlsx
        [⟨some (PyVal.str "X"), some (PyVal.str "K"), some (PyVal.str "pcs"),
          some PyVal.none⟩] =
      some [⟨PyVal.str "X", PyVal.str "K", PyVal.str "pcs", 0⟩] ∧
    ([(⟨PyVal.str "X", PyVal.str "K", PyVal.str "pcs", 0⟩ : MirKeramiki.MirRow)].length =
        [(⟨some (PyVal.str "X"), some (PyVal.str "K"), some (PyVal.str "pcs"),
          some PyVal.none⟩ : MirKeramiki.MirItem)].length ∧
      [(⟨PyVal.str "X", PyVal.str "K", PyVal.str "pcs", 0⟩ : MirKeramiki.MirRow)].map
          (fun r => r.priceDiler2) =
        [(⟨some (PyVal.str "X"), some (PyVal.str "K"), some (PyVal.str "pcs"),
          some PyVal.none⟩ : MirKeramiki.MirItem)].map
          (fun it => coercePrice (it.priceDiler2.getD (PyVal.num 0)))) :=
  ⟨by decide,
    claim6_amended.2.1
      [⟨some (PyVal.str "X"), some (PyVal.str "K"), some (PyVal.str "pcs"),
        some PyVal.none⟩]
      [⟨PyVal.str "X", PyVal.str "K", PyVal.str "pcs", 0⟩] (by decide)⟩

/-- C1 counterexample: the claim says that with no previous snapshot the
change check reports `hasChanges = true` (first run always reportable).
On a non-empty current table and an empty ledger the code logs
"сравнение невозможно" and returns `has_changes = False`. -/
theorem claim1_counterexample :
    (Altacera.check_for_changes "/app/storage" "altacera" 0
        (some [⟨PyVal.str "Tile A", PyVal.str "pcs", PyVal.str "A1", 10⟩]) []
        (fun _ => Option.none)).hasChanges = false ∧
    ([⟨PyVal.str "Tile A", PyVal.str "pcs", PyVal.str "A1", 10⟩] :
      List Altacera.CRow) ≠ [] := by
  exact ⟨rfl, by decide⟩

/-- C1 amended: when no previous snapshot is available (no ledger record
for the supplier, a null recorded path, or a recorded path that is
missing/unreadable), the change check reports `hasChanges = false`,
returns the current table, and yields no previous table (no added /
removed / changed sets are derived). -/
theorem claim1_amended (basePath supplierName : String) (today : Nat)
    (currentDf : List Altacera.CRow) (ledger : List LedgerRecord)
    (fs : String → Option (List Altacera.CRow))
    (h : Option.bind (Option.bind (latestFor supplierName ledger)
      (fun r => r.currentUnifiedPath)) fs = Option.none) :
    (Altacera.check_for_changes basePath supplierName today (some currentDf)
        ledger fs).hasChanges = false ∧
    (Altacera.check_for_changes basePath supplierName today (some currentDf)
        ledger fs).currentDf = some currentDf ∧
    (Altacera.check_for_changes basePath supplierName today (some currentDf)
        ledger fs).previousDf = Option.none := by
  simp only [Altacera.check_for_changes]
  rcases hp : Option.bind (latestFor supplierName ledger)
      (fun r => r.currentUnifiedPath) with _ | pp
  · exact ⟨rfl, rfl, rfl⟩
  · rw [hp] at h
    simp only [Option.some_bind] at h
    simp [h]

/-- C1 witness: concrete application of the amended theorem on a
non-empty current table and an empty ledger. -/
theorem claim1_witness :
    Option.bind (Option.bind (latestFor "altacera" ([] : List LedgerRecord))
        (fun r => r.currentUnifiedPath))
      (fun _ => (Option.none : Option (List Altacera.CRow))) = Option.none ∧
    ((Altacera.check_for_changes "/app/storage" "altacera" 0
        (some [⟨PyVal.str "Tile B", PyVal.str "pcs", PyVal.str "B1", 5⟩]) []
        (fun _ => Option.none)).hasChanges = false ∧
      (Altacera.check_for_changes "/app/storage" "altacera" 0
        (some [⟨PyVal.str "Tile B", PyVal.str "pcs", PyVal.str "B1", 5⟩]) []
        (fun _ => Option.none)).currentDf =
          some [⟨PyVal.str "Tile B", PyVal.str "pcs", PyVal.str "B1", 5⟩] ∧
      (Altacera.check_for_changes "/app/storage" "altacera" 0
        (some [⟨PyVal.str "Tile B", PyVal.str "pcs", PyVal.str "B1", 5⟩]) []
        (fun _ => Option.none)).previousDf = Option.none) :=
  ⟨rfl,
    claim1_amended "/app/storage" "altacera" 0
      [⟨PyVal.str "Tile B", PyVal.str "pcs", PyVal.str "B1", 5⟩] []
      (fun _ => Option.none) rfl⟩

/-- C2 counterexample: the claim says that when the current table cannot
be constructed no ledger record is written and the previous record
remains the latest.  With a prior record at date 0 and a run at date 1
whose fetch fails (`fetched = none`), `process_any_supplier` still
upserts a record for date 1 (with a null current path and a written
"no changes" report), which becomes the supplier's latest record. -/
theorem claim2_counterexample :
    latestFor "altacera"
        (process_any_supplier "/app/storage" "altacera" 1 Option.none
          [⟨0, some "/app/storage/altacera/0/unified.xlsx", Option.none,
            Option.none, "altacera"⟩]
          (fun _ => Option.none)) ≠
      some ⟨0, some "/app/storage/altacera/0/unified.xlsx", Option.none,
        Option.none, "altacera"⟩ ∧
    latestFor "altacera"
        (process_any_supplier "/app/storage" "altacera" 1 Option.none
          [⟨0, some "/app/storage/altacera/0/unified.xlsx", Option.none,
            Option.none, "altacera"⟩]
          (fun _ => Option.none)) =
      some ⟨1, Option.none, Option.none,
        some "/app/storage/altacera/1/report.xlsx", "altacera"⟩ := by
  decide

/-- C2 amended: for every run in which fetch/normalize fails (the current
table is `None`), `process_any_supplier` still writes a LedgerRecord for
the run — with a null `current_unified_path`, a null
`previous_unified_path`, and the path of the freshly written "no changes"
report — and (when the run's date is newer than every existing record)
this new record becomes the latest record for the supplier. -/
theorem claim2_amended (basePath supplierName : String) (today : Nat)
    (ledger : List LedgerRecord) (fs : String → Option (List Altacera.CRow))
    (h : ∀ x ∈ ledger, x.date < today) :
    latestFor supplierName
        (process_any_supplier basePath supplierName today Option.none ledger fs) =
      some ⟨today, Option.none, Option.none,
        some (reportPathFor basePath supplierName today), supplierName⟩ := by
  show latestFor supplierName
    (upsertRecord ledger ⟨today, Option.none, Option.none,
      some (reportPathFor basePath supplierName today), supplierName⟩) = _
  rw [upsertRecord]
  have hany : ledger.any (fun x => decide (x.date = today)) = false := by
    rw [List.any_eq_false]
    intro x hx
    simpa using Nat.ne_of_lt (h x hx)
  rw [hany]
  simp only [Bool.false_eq_true, if_false]
  exact latestFor_append_newest_aux supplierName ledger _ rfl h

/-- C2 witness: concrete application of the amended theorem with one
prior record at date 0 and a failed run at date 1. -/
theorem claim2_witness :
    (∀ x ∈ [(⟨0, some "p0", Option.none, Option.none, "altacera"⟩ :
        LedgerRecord)], x.date < 1) ∧
    latestFor "altacera"
        (process_any_supplier "/app/storage" "altacera" 1 Option.none
          [⟨0, some "p0", Option.none, Option.none, "altacera"⟩]
          (fun _ => Option.none)) =
      some ⟨1, Option.none, Option.none,
        some (reportPathFor "/app/storage" "altacera" 1), "altacera"⟩ :=
  ⟨by decide,
    claim2_amended "/app/storage" "altacera" 1
      [⟨0, some "p0", Option.none, Option.none, "altacera"⟩]
      (fun _ => Option.none) (by decide)⟩

/-- C3 counterexample: the claim says writing a record for one supplier
never overwrites or removes a different supplier's record for the same
date.  The upsert conflicts on `date` alone: writing the mir_keramiki
record for date 5 replaces the existing altacera record for date 5
wholesale, after which no altacera record exists at all. -/
theorem claim3_counterexample :
    upsertRecord
        [⟨5, some "/app/storage/altacera/5/unified.xlsx", Option.none,
          Option.none, "altacera"⟩]
        ⟨5, some "/app/storage/mir_keramiki/5/unified.xlsx", Option.none,
          Option.none, "mir_keramiki"⟩ =
      [⟨5, some "/app/storage/mir_keramiki/5/unified.xlsx", Option.none,
        Option.none, "mir_keramiki"⟩] ∧
    latestFor "altacera"
        (upsertRecord
          [⟨5, some "/app/storage/altacera/5/unified.xlsx", Option.none,
            Option.none, "altacera"⟩]
          ⟨5, some "/app/storage/mir_keramiki/5/unified.xlsx", Option.none,
            Option.none, "mir_keramiki"⟩) = Option.none := by
  decide

/-- C3 amended: the ledger upsert is keyed on `date` alone: it preserves
the at-most-one-record-per-date invariant (hence trivially at most one
per (date, supplier)), and after an upsert every record carrying the new
record's date IS the new record — a write for one supplier on a given
date replaces any existing record for that date, including one belonging
to a different supplier. -/
theorem claim3_amended (l : List LedgerRecord) (r : LedgerRecord)
    (hnodup : (l.map (fun x => x.date)).Nodup) :
    ((upsertRecord l r).map (fun x => x.date)).Nodup ∧
    ∀ x ∈ upsertRecord l r, x.date = r.date → x = r := by
  rw [upsertRecord]
  split
  · constructor
    · have hmap : (l.map (fun x => if x.date = r.date then r else x)).map
          (fun x => x.date) = l.map (fun x => x.date) := by
        rw [List.map_map]
        apply List.map_congr_left
        intro a _
        by_cases h : a.date = r.date
        · simp only [Function.comp_apply, if_pos h]
          exact h.symm
        · simp only [Function.comp_apply, if_neg h]
      rw [hmap]
      exact hnodup
    · intro x hx hdate
      rw [List.mem_map] at hx
      obtain ⟨y, _, rfl⟩ := hx
      by_cases h : y.date = r.date
      · rw [if_pos h]
      · rw [if_neg h] at hdate ⊢
        exact absurd hdate h
  · rename_i hany
    rw [Bool.not_eq_true, List.any_eq_false] at hany
    constructor
    · rw [List.map_append, List.nodup_append]
      refine ⟨hnodup, by simp, ?_⟩
      intro a ha hb
      simp only [List.map_cons, List.map_nil, List.mem_singleton] at hb
      rw [List.mem_map] at ha
      obtain ⟨y, hy, rfl⟩ := ha
      exact hany y hy (by simp [hb])
    · intro x hx hdate
      rcases List.mem_append.mp hx with h1 | h2
      · exact absurd hdate (by simpa using hany x h1)
      · simpa using h2

/-- C3 witness: concrete application of the amended theorem. -/
theorem claim3_witness :
    ([(⟨3, some "pa", Option.none, Option.none, "altacera"⟩ :
        LedgerRecord)].map (fun x => x.date)).Nodup ∧
    (((upsertRecord [⟨3, some "pa", Option.none, Option.none, "altacera"⟩]
          ⟨3, some "pm", Option.none, Option.none, "mir_keramiki"⟩).map
        (fun x => x.date)).Nodup ∧
      ∀ x ∈ upsertRecord [⟨3, some "pa", Option.none, Option.none, "altacera"⟩]
          ⟨3, some "pm", Option.none, Option.none, "mir_keramiki"⟩,
        x.date = (⟨3, some "pm", Option.none, Option.none,
          "mir_keramiki"⟩ : LedgerRecord).date →
          x = ⟨3, some "pm", Option.none, Option.none, "mir_keramiki"⟩) :=
  ⟨by decide,
    claim3_amended [⟨3, some "pa", Option.none, Option.none, "altacera"⟩]
      ⟨3, some "pm", Option.none, Option.none, "mir_keramiki"⟩ (by decide)⟩

/-- C4 counterexample: the claim says the change check's `hasChanges`
equals "added or removed or changed non-empty".  It fails in both
directions.  (1) `has_changes` is whole-DataFrame equality, which is
order-sensitive: storing the same two rows in swapped order gives
`hasChanges = true` while all three classification sets are empty.
(2) With a missing `Название` cell the two notions of equality diverge
the other way: `DataFrame.equals` treats nulls in the same location as
equal, so an identical table gives `hasChanges = false`, while the
report step's null-propagating `!=` puts that row in `changed`
(non-empty changed set with `hasChanges = false`). -/
theorem claim4_counterexample :
    (Altacera.check_for_changes "/app/storage" "altacera" 1
        (some [⟨PyVal.str "Tile B", PyVal.str "pcs", PyVal.str "B1", 5⟩,
               ⟨PyVal.str "Tile A", PyVal.str "pcs", PyVal.str "A1", 10⟩])
        [⟨0, some "P", Option.none, Option.none, "altacera"⟩]
        (fun p => if p = "P" then
          some [⟨PyVal.str "Tile A", PyVal.str "pcs", PyVal.str "A1", 10⟩,
                ⟨PyVal.str "Tile B", PyVal.str "pcs", PyVal.str "B1", 5⟩]
          else Option.none)).hasChanges = true ∧
    Altacera.addedItems
        [⟨PyVal.str "Tile A", PyVal.str "pcs", PyVal.str "A1", 10⟩,
         ⟨PyVal.str "Tile B", PyVal.str "pcs", PyVal.str "B1", 5⟩]
        [⟨PyVal.str "Tile B", PyVal.str "pcs", PyVal.str "B1", 5⟩,
         ⟨PyVal.str "Tile A", PyVal.str "pcs", PyVal.str "A1", 10⟩] = [] ∧
    Altacera.removedItems
        [⟨PyVal.str "Tile A", PyVal.str "pcs", PyVal.str "A1", 10⟩,
         ⟨PyVal.str "Tile B", PyVal.str "pcs", PyVal.str "B1", 5⟩]
        [⟨PyVal.str "Tile B", PyVal.str "pcs", PyVal.str "B1", 5⟩,
         ⟨PyVal.str "Tile A", PyVal.str "pcs", PyVal.str "A1", 10⟩] = [] ∧
    Altacera.changedItems
        [⟨PyVal.str "Tile A", PyVal.str "pcs", PyVal.str "A1", 10⟩,
         ⟨PyVal.str "Tile B", PyVal.str "pcs", PyVal.str "B1", 5⟩]
        [⟨PyVal.str "Tile B", PyVal.str "pcs", PyVal.str "B1", 5⟩,
         ⟨PyVal.str "Tile A", PyVal.str "pcs", PyVal.str "A1", 10⟩] = [] ∧
    (Altacera.check_for_changes "/app/storage" "altacera" 1
        (some [⟨PyVal.none, PyVal.str "pcs", PyVal.str "B1", 5⟩])
        [⟨0, some "P", Option.none, Option.none, "altacera"⟩]
        (fun p => if p = "P" then
          some [⟨PyVal.none, PyVal.str "pcs", PyVal.str "B1", 5⟩]
          else Option.none)).hasChanges = false ∧
    Altacera.changedItems
        [⟨PyVal.none, PyVal.str "pcs", PyVal.str "B1", 5⟩]
        [⟨PyVal.none, PyVal.str "pcs", PyVal.str "B1", 5⟩] =
      [⟨PyVal.none, PyVal.str "pcs", PyVal.str "B1", 5⟩] := by
  decide

/-- C4 amended: one direction of the claimed equivalence holds, on a
restricted domain: on a current table with unique business keys and no
missing Название / Единица измерения cells, whenever any of the added /
removed / changed sets derived by the report step is non-empty, the
change check reports `hasChanges = true`.  Both restrictions are forced
by the counterexample: `has_changes` is order-sensitive whole-table
equality, so it can be true with all three sets empty (reordered rows),
and on a row with a missing cell the report step's null-propagating
comparison puts the row in `changed` while `DataFrame.equals` treats the
identical tables as equal, leaving `hasChanges = false`. -/
theorem claim4_amended (basePath supplierName : String) (today : Nat)
    (prev cur : List Altacera.CRow) (ledger : List LedgerRecord)
    (fs : String → Option (List Altacera.CRow)) (pp : String)
    (hnodup : (Altacera.keysOf cur).Nodup)
    (hnonnull : ∀ c ∈ cur, c.nazvanie ≠ PyVal.none ∧
      c.edinitsa ≠ PyVal.none)
    (hpath : Option.bind (latestFor supplierName ledger)
      (fun r => r.currentUnifiedPath) = some pp)
    (hfs : fs pp = some prev)
    (hne : Altacera.addedItems prev cur ≠ [] ∨
      Altacera.removedItems prev cur ≠ [] ∨
      Altacera.changedItems prev cur ≠ []) :
    (Altacera.check_for_changes basePath supplierName today (some cur)
      ledger fs).hasChanges = true := by
  simp only [Altacera.check_for_changes]
  rw [hpath]
  simp only [hfs]
  show Altacera.hasChangesPure prev cur = true
  rw [Altacera.hasChangesPure]
  split
  · rename_i heq
    exfalso
    subst heq
    rcases hne with h | h | h
    · exact h (Altacera.addedItems_self cur)
    · exact h (Altacera.removedItems_self cur)
    · exact h (Altacera.changedItems_self cur hnodup hnonnull)
  · rfl

/-- C4 witness: concrete application of the amended theorem on the spec's
example scenario (price of Tile A changed, Tile B added). -/
theorem claim4_witness :
    (Altacera.keysOf
        [⟨PyVal.str "Tile A", PyVal.str "pcs", PyVal.str "A1", 12⟩,
         ⟨PyVal.str "Tile B", PyVal.str "pcs", PyVal.str "B1", 5⟩]).Nodup ∧
    (∀ c ∈ [(⟨PyVal.str "Tile A", PyVal.str "pcs", PyVal.str "A1", 12⟩ :
          Altacera.CRow),
        ⟨PyVal.str "Tile B", PyVal.str "pcs", PyVal.str "B1", 5⟩],
      c.nazvanie ≠ PyVal.none ∧ c.edinitsa ≠ PyVal.none) ∧
    Option.bind
        (latestFor "altacera"
          [⟨0, some "P", Option.none, Option.none, "altacera"⟩])
        (fun r => r.currentUnifiedPath) = some "P" ∧
    (fun p => if p = "P" then
        some [(⟨PyVal.str "Tile A", PyVal.str "pcs", PyVal.str "A1", 10⟩ :
          Altacera.CRow)]
        else Option.none) "P" =
      some [(⟨PyVal.str "Tile A", PyVal.str "pcs", PyVal.str "A1", 10⟩ :
        Altacera.CRow)] ∧
    (Altacera.check_for_changes "/app/storage" "altacera" 1
        (some [⟨PyVal.str "Tile A", PyVal.str "pcs", PyVal.str "A1", 12⟩,
               ⟨PyVal.str "Tile B", PyVal.str "pcs", PyVal.str "B1", 5⟩])
        [⟨0, some "P", Option.none, Option.none, "altacera"⟩]
        (fun p => if p = "P" then
          some [⟨PyVal.str "Tile A", PyVal.str "pcs", PyVal.str "A1", 10⟩]
          else Option.none)).hasChanges = true :=
  ⟨by decide, by decide, by decide, by decide,
    claim4_amended "/app/storage" "altacera" 1
      [⟨PyVal.str "Tile A", PyVal.str "pcs", PyVal.str "A1", 10⟩]
      [⟨PyVal.str "Tile A", PyVal.str "pcs", PyVal.str "A1", 12⟩,
       ⟨PyVal.str "Tile B", PyVal.str "pcs", PyVal.str "B1", 5⟩]
      [⟨0, some "P", Option.none, Option.none, "altacera"⟩]
      (fun p => if p = "P" then
        some [⟨PyVal.str "Tile A", PyVal.str "pcs", PyVal.str "A1", 10⟩]
        else Option.none)
      "P" (by decide) (by decide) (by decide) (by decide)
      (Or.inl (by decide))⟩

/-- C8 counterexample: the claim says normalize de-duplicates by the
business key for every supplier.  MirKeramiki's normalize performs no
de-duplication: two raw items with the same `Article` and different
fields both survive, so the unified table has two rows with the same
business key. -/
theorem claim8_counterexample :
    MirKeramiki.create_unified_xlsx
        [⟨some (PyVal.str "X"), some (PyVal.str "K"), some (PyVal.str "pcs"),
          some (PyVal.num 1)⟩,
         ⟨some (PyVal.str "Y"), some (PyVal.str "K"), some (PyVal.str "pcs"),
          some (PyVal.num 2)⟩] =
      some [⟨PyVal.str "X", PyVal.str "K", PyVal.str "pcs", 1⟩,
            ⟨PyVal.str "Y", PyVal.str "K", PyVal.str "pcs", 2⟩] ∧
    ¬ ([(⟨PyVal.str "X", PyVal.str "K", PyVal.str "pcs", 1⟩ :
          MirKeramiki.MirRow),
        ⟨PyVal.str "Y", PyVal.str "K", PyVal.str "pcs", 2⟩].map
        (fun r => r.article)).Nodup := by
  decide

/-- C8 amended: Altacera's normalize de-duplicates by `Артикул` with
`keep='last'`: the unified table has pairwise distinct business keys, and
looking any key up in it returns exactly the LAST joined occurrence of
that key (later rows' values win).  MirKeramiki's normalize performs no
de-duplication at all: every item of a non-empty payload contributes its
own row. -/
theorem claim8_amended :
    (∀ (nom : List Altacera.NomItem) (pbs : List Altacera.PriceBlock),
      ((Altacera.create_unified_xlsx nom pbs).map (fun r => r.artikul)).Nodup) ∧
    (∀ (nom : List Altacera.NomItem) (pbs : List Altacera.PriceBlock)
        (k : PyVal),
      (Altacera.create_unified_xlsx nom pbs).find?
          (fun r => decide (r.artikul = k)) =
        ((Altacera.joined nom pbs).map Altacera.coerceRow).reverse.find?
          (fun r => decide (r.artikul = k))) ∧
    (∀ (items : List MirKeramiki.MirItem) (rows : List MirKeramiki.MirRow),
      MirKeramiki.create_unified_xlsx items = some rows →
        rows.length = items.length) := by
  refine ⟨?_, ?_, ?_⟩
  · intro nom pbs
    rw [Altacera.create_unified_xlsx]
    exact nodup_keys_dedupKeepLastBy _ _
  · intro nom pbs k
    rw [Altacera.create_unified_xlsx]
    exact find?_dedupKeepLastBy _ _ _
  · intro items rows h
    rw [MirKeramiki.create_unified_xlsx] at h
    split at h
    · exact absurd h (by simp)
    · obtain rfl := Option.some.inj h
      simp

/-- C8 witness: concrete application of the MirKeramiki part of the
amended theorem, discharging its hypothesis. -/
theorem claim8_witness :
    MirKeramiki.create_unified_xlsx
        [⟨some (PyVal.str "Z"), some (PyVal.str "K2"), some (PyVal.str "pcs"),
          some (PyVal.num 3)⟩] =
      some [⟨PyVal.str "Z", PyVal.str "K2", PyVal.str "pcs", 3⟩] ∧
    [(⟨PyVal.str "Z", PyVal.str "K2", PyVal.str "pcs", 3⟩ :
        MirKeramiki.MirRow)].length =
      [(⟨some (PyVal.str "Z"), some (PyVal.str "K2"), some (PyVal.str "pcs"),
        some (PyVal.num 3)⟩ : MirKeramiki.MirItem)].length :=
  ⟨by decide,
    claim8_amended.2.2
      [⟨some (PyVal.str "Z"), some (PyVal.str "K2"), some (PyVal.str "pcs"),
        some (PyVal.num 3)⟩]
      [⟨PyVal.str "Z", PyVal.str "K2", PyVal.str "pcs", 3⟩] (by decide)⟩

/-- C9: for every pair of tables with unique business keys, the keys of
the derived added / removed / changed (and unchanged) sets are pairwise
disjoint, and every key of previous ∪ current falls into exactly one of
added, removed, changed, or unchanged. -/
theorem claim9_partition (prev cur : List Altacera.CRow)
    (h1 : (Altacera.keysOf prev).Nodup) (h2 : (Altacera.keysOf cur).Nodup) :
    (∀ k, ¬(k ∈ Altacera.keysOf (Altacera.addedItems prev cur) ∧
        k ∈ Altacera.keysOf (Altacera.removedItems prev cur))) ∧
    (∀ k, ¬(k ∈ Altacera.keysOf (Altacera.addedItems prev cur) ∧
        k ∈ Altacera.keysOf (Altacera.changedItems prev cur))) ∧
    (∀ k, ¬(k ∈ Altacera.keysOf (Altacera.addedItems prev cur) ∧
        k ∈ Altacera.keysOf (Altacera.unchangedItems prev cur))) ∧
    (∀ k, ¬(k ∈ Altacera.keysOf (Altacera.removedItems prev cur) ∧
        k ∈ Altacera.keysOf (Altacera.changedItems prev cur))) ∧
    (∀ k, ¬(k ∈ Altacera.keysOf (Altacera.removedItems prev cur) ∧
        k ∈ Altacera.keysOf (Altacera.unchangedItems prev cur))) ∧
    (∀ k, ¬(k ∈ Altacera.keysOf (Altacera.changedItems prev cur) ∧
        k ∈ Altacera.keysOf (Altacera.unchangedItems prev cur))) ∧
    (∀ k, (k ∈ Altacera.keysOf prev ∨ k ∈ Altacera.keysOf cur) ↔
      (k ∈ Altacera.keysOf (Altacera.addedItems prev cur) ∨
        k ∈ Altacera.keysOf (Altacera.removedItems prev cur) ∨
        k ∈ Altacera.keysOf (Altacera.changedItems prev cur) ∨
        k ∈ Altacera.keysOf (Altacera.unchangedItems prev cur))) := by
  refine ⟨?_, ?_, ?_, ?_, ?_, ?_, ?_⟩
  · rintro k ⟨ha, hr⟩
    rw [Altacera.mem_keysOf_added] at ha
    rw [Altacera.mem_keysOf_removed] at hr
    obtain ⟨c, hc, hck, hnone⟩ := ha
    obtain ⟨p, hp, hpk, -⟩ := hr
    rw [Altacera.lookupByArtikul_eq_none_iff] at hnone
    exact hnone p hp hpk
  · rintro k ⟨ha, hch⟩
    rw [Altacera.mem_keysOf_added] at ha
    rw [Altacera.mem_keysOf_changed] at hch
    obtain ⟨c, hc, hck, hnone⟩ := ha
    obtain ⟨c2, p, hc2, hk2, hsome, -⟩ := hch
    rw [hnone] at hsome
    exact Option.noConfusion hsome
  · rintro k ⟨ha, hu⟩
    rw [Altacera.mem_keysOf_added] at ha
    rw [Altacera.mem_keysOf_unchanged] at hu
    obtain ⟨c, hc, hck, hnone⟩ := ha
    obtain ⟨c2, p, hc2, hk2, hsome, -⟩ := hu
    rw [hnone] at hsome
    exact Option.noConfusion hsome
  · rintro k ⟨hr, hch⟩
    rw [Altacera.mem_keysOf_removed] at hr
    rw [Altacera.mem_keysOf_changed] at hch
    obtain ⟨p, hp, hpk, hnone⟩ := hr
    obtain ⟨c, p2, hc, hck, -, -⟩ := hch
    rw [Altacera.lookupByArtikul_eq_none_iff] at hnone
    exact hnone c hc hck
  · rintro k ⟨hr, hu⟩
    rw [Altacera.mem_keysOf_removed] at hr
    rw [Altacera.mem_keysOf_unchanged] at hu
    obtain ⟨p, hp, hpk, hnone⟩ := hr
    obtain ⟨c, p2, hc, hck, -, -⟩ := hu
    rw [Altacera.lookupByArtikul_eq_none_iff] at hnone
    exact hnone c hc hck
  · rintro k ⟨hch, hu⟩
    rw [Altacera.mem_keysOf_changed] at hch
    rw [Altacera.mem_keysOf_unchanged] at hu
    obtain ⟨c1, p1, hc1, hk1, hl1, hd1⟩ := hch
    obtain ⟨c2, p2, hc2, hk2, hl2, hd2⟩ := hu
    have hpe : p1 = p2 := by
      rw [hl1] at hl2
      exact Option.some.inj hl2
    have hce : c1 = c2 :=
      List.inj_on_of_nodup_map h2 hc1 hc2 (by rw [hk1, hk2])
    rw [hpe, hce] at hd1
    rw [hd1] at hd2
    exact Bool.noConfusion hd2
  · intro k
    constructor
    · intro hk
      by_cases hcur : k ∈ Altacera.keysOf cur
      · obtain ⟨c, hc, hck⟩ := (Altacera.mem_keysOf k cur).mp hcur
        rcases hl : Altacera.lookupByArtikul prev k with _ | p
        · exact Or.inl ((Altacera.mem_keysOf_added k prev cur).mpr
            ⟨c, hc, hck, hl⟩)
        · cases hd : Altacera.rowFieldsDiffer p c with
          | false =>
            exact Or.inr (Or.inr (Or.inr
              ((Altacera.mem_keysOf_unchanged k prev cur).mpr
                ⟨c, p, hc, hck, hl, hd⟩)))
          | true =>
            exact Or.inr (Or.inr (Or.inl
              ((Altacera.mem_keysOf_changed k prev cur).mpr
                ⟨c, p, hc, hck, hl, hd⟩)))
      · have hprev : k ∈ Altacera.keysOf prev := hk.resolve_right hcur
        obtain ⟨p, hp, hpk⟩ := (Altacera.mem_keysOf k prev).mp hprev
        have hnone : Altacera.lookupByArtikul cur k = Option.none := by
          rw [Altacera.lookupByArtikul_eq_none_iff]
          intro r hr hrk
          exact hcur ((Altacera.mem_keysOf k cur).mpr ⟨r, hr, hrk⟩)
        exact Or.inr (Or.inl ((Altacera.mem_keysOf_removed k prev cur).mpr
          ⟨p, hp, hpk, hnone⟩))
    · intro hmem
      rcases hmem with h | h | h | h
      · obtain ⟨c, hc, hck, -⟩ := (Altacera.mem_keysOf_added k prev cur).mp h
        exact Or.inr ((Altacera.mem_keysOf k cur).mpr ⟨c, hc, hck⟩)
      · obtain ⟨p, hp, hpk, -⟩ := (Altacera.mem_keysOf_removed k prev cur).mp h
        exact Or.inl ((Altacera.mem_keysOf k prev).mpr ⟨p, hp, hpk⟩)
      · obtain ⟨c, p, hc, hck, -, -⟩ :=
          (Altacera.mem_keysOf_changed k prev cur).mp h
        exact Or.inr ((Altacera.mem_keysOf k cur).mpr ⟨c, hc, hck⟩)
      · obtain ⟨c, p, hc, hck, -, -⟩ :=
          (Altacera.mem_keysOf_unchanged k prev cur).mp h
        exact Or.inr ((Altacera.mem_keysOf k cur).mpr ⟨c, hc, hck⟩)

/-- C9 witness: concrete application of the partition theorem on the
spec's example scenario. -/
theorem claim9_witness :
    (Altacera.keysOf
        [⟨PyVal.str "Tile A", PyVal.str "pcs", PyVal.str "A1", 10⟩]).Nodup ∧
    (Altacera.keysOf
        [⟨PyVal.str "Tile A", PyVal.str "pcs", PyVal.str "A1", 12⟩,
         ⟨PyVal.str "Tile B", PyVal.str "pcs", PyVal.str "B1", 5⟩]).Nodup ∧
    (∀ k, (k ∈ Altacera.keysOf
          [(⟨PyVal.str "Tile A", PyVal.str "pcs", PyVal.str "A1", 10⟩ :
            Altacera.CRow)] ∨
        k ∈ Altacera.keysOf
          [(⟨PyVal.str "Tile A", PyVal.str "pcs", PyVal.str "A1", 12⟩ :
            Altacera.CRow),
           ⟨PyVal.str "Tile B", PyVal.str "pcs", PyVal.str "B1", 5⟩]) ↔
      (k ∈ Altacera.keysOf (Altacera.addedItems
          [⟨PyVal.str "Tile A", PyVal.str "pcs", PyVal.str "A1", 10⟩]
          [⟨PyVal.str "Tile A", PyVal.str "pcs", PyVal.str "A1", 12⟩,
           ⟨PyVal.str "Tile B", PyVal.str "pcs", PyVal.str "B1", 5⟩]) ∨
        k ∈ Altacera.keysOf (Altacera.removedItems
          [⟨PyVal.str "Tile A", PyVal.str "pcs", PyVal.str "A1", 10⟩]
          [⟨PyVal.str "Tile A", PyVal.str "pcs", PyVal.str "A1", 12⟩,
           ⟨PyVal.str "Tile B", PyVal.str "pcs", PyVal.str "B1", 5⟩]) ∨
        k ∈ Altacera.keysOf (Altacera.changedItems
          [⟨PyVal.str "Tile A", PyVal.str "pcs", PyVal.str "A1", 10⟩]
          [⟨PyVal.str "Tile A", PyVal.str "pcs", PyVal.str "A1", 12⟩,
           ⟨PyVal.str "Tile B", PyVal.str "pcs", PyVal.str "B1", 5⟩]) ∨
        k ∈ Altacera.keysOf (Altacera.unchangedItems
          [⟨PyVal.str "Tile A", PyVal.str "pcs", PyVal.str "A1", 10⟩]
          [⟨PyVal.str "Tile A", PyVal.str "pcs", PyVal.str "A1", 12⟩,
           ⟨PyVal.str "Tile B", PyVal.str "pcs", PyVal.str "B1", 5⟩]))) :=
  ⟨by decide, by decide,
    (claim9_partition
      [⟨PyVal.str "Tile A", PyVal.str "pcs", PyVal.str "A1", 10⟩]
      [⟨PyVal.str "Tile A", PyVal.str "pcs", PyVal.str "A1", 12⟩,
       ⟨PyVal.str "Tile B", PyVal.str "pcs", PyVal.str "B1", 5⟩]
      (by decide) (by decide)).2.2.2.2.2.2⟩

end PriceCompare
